import Mathlib

/-!
Shallow embedding of the core of `room_scrape.go` (WIT room scraper):
the timetable parser (the `roomCollector.OnHTML("div#divTT", ...)` callback),
the week-code computation from the landing page, the per-room dispatch loop,
and the aggregation fold that builds `freeRoomTable`.

Go maps `map[string][]string` are modelled as association lists with unique
keys in insertion order; Go's panicking index accesses (`splitDate[1]`,
`days[currentDay]`) are modelled by `Option`, `none` meaning a runtime panic.
-/

namespace RoomScrape

/-- The `Timetable` struct from `room_scrape.go`. `FreeTimes` models the Go
map `map[string][]string` as an association list with unique keys. -/
structure Timetable where
  Error : Bool
  Empty : Bool
  Date : String
  Room : String
  Week : String
  FreeTimes : List (String × List String)
deriving Repr, DecidableEq

/-- The fixed weekday list `days` from `room_scrape.go`. -/
def days : List String := ["Monday", "Tuesday", "Wednesday", "Thursday", "Friday"]

/-- The fixed time list `times` from `room_scrape.go`. -/
def times : List String :=
  ["09:15", "10:15", "11:15", "12:15", "13:15", "14:15", "15:15", "16:15", "17:15"]

/-- Go map append `m[k] = append(m[k], v)`: appends `v` to the entry for `k`,
creating the entry if absent (Go `append(nil, v)` yields `[v]`). -/
def mapAppend (m : List (String × List String)) (k v : String) :
    List (String × List String) :=
  match m with
  | [] => [(k, [v])]
  | (k₀, vs) :: rest =>
    if k₀ = k then (k₀, vs ++ [v]) :: rest else (k₀, vs) :: mapAppend rest k v

/-- Go map read `m[k]`: the entry for `k`, or the zero value `nil` (here `[]`). -/
def mapGet (m : List (String × List String)) (k : String) : List String :=
  match m with
  | [] => []
  | (k₀, vs) :: rest => if k₀ = k then vs else mapGet rest k

/-- One grid row, by the three `ChildText` reads the row callback performs:
the day-label cell `td[colspan=11] > strong > font > i`, the subject cell
`td:nth-of-type(5)`, and the time cell `td:nth-of-type(1)`. -/
structure Row where
  dayLabel : String
  subject : String
  time : String
deriving Repr, DecidableEq

/-- The three header cells read from the first table: date
(`tr:nth-child(1) > td[align=Right] > b`), room
(`tr:nth-child(3) > td[align=Center] > b`) and week
(`tr:nth-child(3) > td[align=Right] > b`). -/
structure Header where
  date : String
  room : String
  week : String
deriving Repr, DecidableEq

/-- One rendered response document as the parser callback sees it: the list
of header tables matched by `ForEach("table:nth-child(1)")` and the list of
grid tables (each a row list, already excluding the first row, as selected
by `tr:not(:first-child)`) matched by `ForEach("table:nth-child(2)")`. -/
structure Doc where
  headers : List Header
  grids : List (List Row)
deriving Repr, DecidableEq

/-- Splits a character list at every space, keeping empty fields; the
auxiliary recursion behind `splitSp`. -/
def splitSpAux (cur : List Char) : List Char → List (List Char)
  | [] => [cur.reverse]
  | c :: rest =>
    if c = ' ' then cur.reverse :: splitSpAux [] rest else splitSpAux (c :: cur) rest

/-- Go `strings.Split(s, " ")`: splits at every space and keeps empty
fields, so the result is always non-empty (`strings.Split("", " ")` is
`[""]`). -/
def splitSp (s : String) : List String :=
  (splitSpAux [] s.data).map List.asString

/-- The date cell step of header extraction (lines 194-202 of
`room_scrape.go`): a non-empty cell is split on spaces and token 1 becomes
`Date` (`splitDate[1]`, out of range being a Go panic, modelled `none`); an
empty cell sets `Error := true`. -/
def hdDate (t : Timetable) (s : String) : Option Timetable :=
  if s ≠ "" then
    match (splitSp s).get? 1 with
    | some d => some { t with Date := d }
    | none => none
  else
    some { t with Error := true }

/-- The room cell step of header extraction (lines 204-212): token 2 of the
space-split cell becomes `Room` (`splitRoom[2]`); empty cell sets `Error`. -/
def hdRoom (t : Timetable) (s : String) : Option Timetable :=
  if s ≠ "" then
    match (splitSp s).get? 2 with
    | some r => some { t with Room := r }
    | none => none
  else
    some { t with Error := true }

/-- The week cell step of header extraction (lines 214-222): token 2 of the
space-split cell becomes `Week` (`splitWeek[2]`); empty cell sets `Error`. -/
def hdWeek (t : Timetable) (s : String) : Option Timetable :=
  if s ≠ "" then
    match (splitSp s).get? 2 with
    | some w => some { t with Week := w }
    | none => none
  else
    some { t with Error := true }

/-- Header extraction for one header table (lines 191-223 of
`room_scrape.go`): the date, room and week cells in source order; an empty
cell sets `Error := true` and extraction continues with the next cell. -/
def applyHeader (t : Timetable) (h : Header) : Option Timetable :=
  (hdDate t h.date).bind fun t₁ => (hdRoom t₁ h.room).bind fun t₂ => hdWeek t₂ h.week

/-- One step of the grid state machine (lines 230-258 of `room_scrape.go`):
a day-marker row increments `currentDay`; a non-empty subject cell clears
`Empty`; otherwise the row is free and its time is appended to
`FreeTimes[days[currentDay]]`, with `currentDay = -1` setting `Error` instead
and an out-of-range `days[currentDay]` being a panic (`none`). -/
def stepRow (d : Int) (t : Timetable) (r : Row) : Option (Int × Timetable) :=
  if days.contains r.dayLabel then
    some (d + 1, t)
  else if r.subject ≠ "" then
    some (d, { t with Empty := false })
  else if d = -1 then
    some (d, { t with Error := true })
  else if d < 0 then
    none
  else
    match days.get? d.toNat with
    | some dayName => some (d, { t with FreeTimes := mapAppend t.FreeTimes dayName r.time })
    | none => none

/-- Folds the grid state machine over a row list, threading the day cursor. -/
def foldRows (d : Int) (t : Timetable) : List Row → Option (Int × Timetable)
  | [] => some (d, t)
  | r :: rs => (stepRow d t r).bind fun p => foldRows p.1 p.2 rs

/-- Parses one grid table: the cursor starts at the sentinel `-1`
(`currentDay := -1`) and the final cursor value is discarded. -/
def parseGrid (t : Timetable) (rows : List Row) : Option Timetable := do
  let (_, t') ← foldRows (-1) t rows
  pure t'

/-- The whole `OnHTML("div#divTT", ...)` parser: starts from
`Timetable{Error: false, Empty: true, FreeTimes: empty}`, applies header
extraction to every matched header table, then the grid machine to every
matched grid table. `none` models a Go panic. -/
def parseTimetable (doc : Doc) : Option Timetable := do
  let t₀ : Timetable := ⟨false, true, "", "", "", []⟩
  let t₁ ← doc.headers.foldlM applyHeader t₀
  doc.grids.foldlM parseGrid t₁

/-- Digit-string value: `some` of the decimal value when the character list
is non-empty and all digits, else `none`. Auxiliary to `atoi?`. -/
def digitsVal? : List Char → Option Nat
  | [] => none
  | [c] => if c.isDigit then some (c.toNat - '0'.toNat) else none
  | c :: cs =>
    if c.isDigit then
      match digitsVal? cs with
      | some n => some ((c.toNat - '0'.toNat) * 10 ^ cs.length + n)
      | none => none
    else
      none

/-- Wraps an integer into Go's 64-bit `int` range
`[-2^63, 2^63 - 1]`, matching two's-complement overflow of `int` addition. -/
def wrap64 (n : Int) : Int := (n + 2 ^ 63) % 2 ^ 64 - 2 ^ 63

/-- Go `strconv.Atoi` on a 64-bit platform: an optional sign followed by at
least one digit, with the value required to fit Go's `int`
(`[-2^63, 2^63 - 1]`); anything else — the empty string, a stray
character, or an out-of-range value (`ErrRange`) — is an error, modelled
as `none`. -/
def atoi? (s : String) : Option Int :=
  match s.data with
  | '+' :: rest =>
    match digitsVal? rest with
    | some n => if n ≤ 2 ^ 63 - 1 then some (n : Int) else none
    | none => none
  | '-' :: rest =>
    match digitsVal? rest with
    | some n => if n ≤ 2 ^ 63 then some (-(n : Int)) else none
    | none => none
  | cs =>
    match digitsVal? cs with
    | some n => if n ≤ 2 ^ 63 - 1 then some (n : Int) else none
    | none => none

/-- The submitted `CboWeeks` value (lines 138-146 of `room_scrape.go`): when
the looked-up week string parses as an integer, `weekInt + weekOffset` is
computed with Go's wrapping 64-bit `int` addition and rendered in decimal
(`strconv.Itoa`); on any `Atoi` error (including `ErrRange`) the raw string
is used unmodified. -/
def submittedWeek (week : String) (weekOffset : Int) : String :=
  match atoi? week with
  | none => week
  | some w => toString (wrap64 (w + weekOffset))

/-- The aggregated `freeRoomTable`, a Go `map[string]map[string][]string`
modelled as a nested association list: day → time → room list. -/
abbrev FreeRoomTable := List (String × List (String × List String))

/-- Go nested-map read `freeRoomTable[day][time]` with `nil` (here `[]`)
for absent keys. -/
def tableGet (fr : FreeRoomTable) (day time : String) : List String :=
  match fr with
  | [] => []
  | (d₀, b) :: rest => if d₀ = day then mapGet b time else tableGet rest day time

/-- Go `freeRoomTable[day][time] = append(..., room)` including the
`if freeRoomTable[day] == nil` initialization (lines 304-307). -/
def tableAppend (fr : FreeRoomTable) (day time room : String) : FreeRoomTable :=
  match fr with
  | [] => [(day, mapAppend [] time room)]
  | (d₀, b) :: rest =>
    if d₀ = day then (d₀, mapAppend b time room) :: rest
    else (d₀, b) :: tableAppend rest day time room

/-- Folds one `Timetable` into the table (the body of the aggregation loop,
lines 301-309): for each fixed weekday in order, for each time in that day's
free list in order, append the record's room. -/
def aggTimetable (fr : FreeRoomTable) (t : Timetable) : FreeRoomTable :=
  days.foldl
    (fun fr day =>
      (mapGet t.FreeTimes day).foldl (fun fr time => tableAppend fr day time t.Room) fr)
    fr

/-- The aggregation fold over the whole `timetableList` (lines 289-310),
starting from the empty map. -/
def aggregate (ts : List Timetable) : FreeRoomTable := ts.foldl aggTimetable []

/-- The per-room dispatch loop as in `room_scrape.go`: `fetch r = none`
models a request error for room `r` (its `OnError` only logs, lines
272-275, so the room is skipped); a successful response is parsed and the
record appended to `timetableList`; a parser panic (`parseTimetable _ =
none`) aborts the whole run. -/
def runRooms (fetch : String → Option Doc) : List String → List Timetable →
    Option (List Timetable)
  | [], acc => some acc
  | r :: rs, acc =>
    match fetch r with
    | none => runRooms fetch rs acc
    | some doc =>
      match parseTimetable doc with
      | none => none
      | some t => runRooms fetch rs (acc ++ [t])

/-- The per-room dispatch loop as in the `part_001` variant, whose
`roomCollector.OnError` calls `os.Exit(1)` (lines 365-369): the first
request error terminates the whole run, modelled as `none`. -/
def runRoomsExit (fetch : String → Option Doc) : List String → List Timetable →
    Option (List Timetable)
  | [], acc => some acc
  | r :: rs, acc =>
    match fetch r with
    | none => none
    | some doc =>
      match parseTimetable doc with
      | none => none
      | some t => runRoomsExit fetch rs (acc ++ [t])

/-- Whether a grid row is a day-marker row: its day-label cell matches one
of the five weekday names (the first branch of the row callback). -/
def isMarkerRow (r : Row) : Bool := days.contains r.dayLabel

/-- Whether a grid row is classified as free: not a day-marker and with an
empty subject cell (the fall-through branch of the row callback). -/
def isFreeRow (r : Row) : Bool := !days.contains r.dayLabel && r.subject == ""

/-- Key list of an association-list map. -/
def mapKeys (m : List (String × List String)) : List String := m.map Prod.fst

/-- Total number of entries across all values of an association-list map. -/
def totalFree (m : List (String × List String)) : Nat :=
  (m.map fun p => p.2.length).sum

/-- Number of grid rows classified as free that occur after at least one
day-marker row; `seen` records whether a marker has been scanned yet. -/
def countFreeAfter (seen : Bool) : List Row → Nat
  | [] => 0
  | r :: rs =>
    if days.contains r.dayLabel then countFreeAfter true rs
    else if r.subject ≠ "" then countFreeAfter seen rs
    else (if seen then 1 else 0) + countFreeAfter seen rs

/-- Number of day-marker rows in a grid. -/
def countMarkers (rows : List Row) : Nat := rows.countP fun r => days.contains r.dayLabel

/-- The indexing precondition on one header table: every non-empty cell
carries enough space-separated tokens for its fixed token index. -/
def goodHeader (h : Header) : Prop :=
  (h.date ≠ "" → 2 ≤ (splitSp h.date).length) ∧
    (h.room ≠ "" → 3 ≤ (splitSp h.room).length) ∧
    (h.week ≠ "" → 3 ≤ (splitSp h.week).length)

instance (h : Header) : Decidable (goodHeader h) := by
  unfold goodHeader; infer_instance

/-- The rooms one `Timetable` contributes to bucket `(day, time)` of the
aggregate: its room id once per occurrence of `time` in that day's free
list, and nothing for a day outside the fixed five. -/
def contrib (t : Timetable) (day time : String) : List String :=
  if day ∈ days then
    List.replicate ((mapGet t.FreeTimes day).count time) t.Room
  else []

/-- The parts of a `Timetable` that header date extraction never touches:
room, week, empty flag and free-slot map agree. -/
def eqRW (t t' : Timetable) : Prop :=
  t.Room = t'.Room ∧ t.Week = t'.Week ∧ t.Empty = t'.Empty ∧ t.FreeTimes = t'.FreeTimes

/-- A concrete header: date cell `"Mon 01/01"`, room cell `"Room - IT101"`,
week cell `"Week 2 33"`. -/
def exHeader : Header := ⟨"Mon 01/01", "Room - IT101", "Week 2 33"⟩

/-- A concrete grid: Monday marker, free 09:15, subject 10:15, free 11:15. -/
def exGrid : List Row :=
  [⟨"Monday", "", ""⟩, ⟨"", "", "09:15"⟩, ⟨"", "Maths", "10:15"⟩, ⟨"", "", "11:15"⟩]

/-- A concrete well-formed document. -/
def exDoc : Doc := ⟨[exHeader], [exGrid]⟩

/-- The timetable `exDoc` parses to. -/
def exTimetable : Timetable :=
  ⟨false, false, "01/01", "IT101", "33", [("Monday", ["09:15", "11:15"])]⟩

/-- A document whose grid starts with a subject row before any day-marker. -/
def subjectFirstDoc : Doc := ⟨[], [[⟨"", "Maths", "10:15"⟩]]⟩

/-- A document whose grid lists the same free time twice under one day. -/
def dupDoc : Doc :=
  ⟨[exHeader], [[⟨"Monday", "", ""⟩, ⟨"", "", "09:15"⟩, ⟨"", "", "09:15"⟩]]⟩

/-- The timetable `dupDoc` parses to: `"09:15"` twice under Monday. -/
def dupTimetable : Timetable :=
  ⟨false, true, "01/01", "IT101", "33", [("Monday", ["09:15", "09:15"])]⟩

/-- A response document for room IT102 with one Monday free slot. -/
def exRoomDoc : Doc :=
  ⟨[⟨"Mon 01/01", "Room - IT102", "Week 2 33"⟩], [[⟨"Monday", "", ""⟩, ⟨"", "", "09:15"⟩]]⟩

/-- A fetch oracle where room IT101's request fails (transport error) and
room IT102's succeeds with `exRoomDoc`. -/
def exFetch : String → Option Doc :=
  fun r => if r = "IT102" then some exRoomDoc else none

/-- A grid with six day-marker rows followed by one free row, driving
`currentDay` past the end of `days`. -/
def sixMarkerGrid : List Row :=
  [⟨"Monday", "", ""⟩, ⟨"Tuesday", "", ""⟩, ⟨"Wednesday", "", ""⟩, ⟨"Thursday", "", ""⟩,
    ⟨"Friday", "", ""⟩, ⟨"Monday", "", ""⟩, ⟨"", "", "09:15"⟩]

/-- The rooms a single timetable entry's membership in a bucket comes down
to: any element of `contrib t day time` is `t.Room`. -/
theorem mem_contrib {x : String} {t : Timetable} {day time : String}
    (h : x ∈ contrib t day time) : x = t.Room := by
  unfold contrib at h
  split at h
  · exact List.eq_of_mem_replicate h
  · cases h

theorem mapGet_nodup {m : List (String × List String)} (hm : ∀ p ∈ m, p.2.Nodup)
    (k : String) : (mapGet m k).Nodup := by
  induction m with
  | nil => simp [mapGet]
  | cons p rest ih =>
    obtain ⟨k₀, vs⟩ := p
    unfold mapGet
    split
    · exact hm (k₀, vs) (List.mem_cons_self _ _)
    · exact ih fun q hq => hm q (List.mem_cons_of_mem _ hq)

theorem contrib_nodup {t : Timetable} (hm : ∀ p ∈ t.FreeTimes, p.2.Nodup)
    (day time : String) : (contrib t day time).Nodup := by
  unfold contrib
  split
  · rw [List.nodup_replicate]
    exact List.nodup_iff_count_le_one.mp (mapGet_nodup hm day) time
  · simp

end RoomScrape

namespace RoomScrape

theorem foldlM_opt_cons {α β : Type} (f : β → α → Option β) (b : β) (a : α) (as : List α) :
    List.foldlM f b (a :: as) = (f b a).bind fun b' => List.foldlM f b' as := rfl

theorem parseTimetable_eq (doc : Doc) :
    parseTimetable doc =
      (doc.headers.foldlM applyHeader ⟨false, true, "", "", "", []⟩).bind fun t₁ =>
        doc.grids.foldlM parseGrid t₁ := rfl

theorem stepRow_error_mono {d : Int} {t : Timetable} {r : Row} {d' : Int} {t' : Timetable}
    (hs : stepRow d t r = some (d', t')) (he : t.Error = true) : t'.Error = true := by
  unfold stepRow at hs
  split at hs
  · cases hs; exact he
  · split at hs
    · cases hs; exact he
    · split at hs
      · cases hs; rfl
      · split at hs
        · cases hs
        · split at hs
          · cases hs; exact he
          · cases hs

theorem foldRows_error_mono :
    ∀ (rows : List Row) {d : Int} {t : Timetable} {d' : Int} {t' : Timetable},
      foldRows d t rows = some (d', t') → t.Error = true → t'.Error = true := by
  intro rows
  induction rows with
  | nil => intro d t d' t' h he; unfold foldRows at h; cases h; exact he
  | cons r rs ih =>
    intro d t d' t' h he
    unfold foldRows at h
    cases hs : stepRow d t r with
    | none => rw [hs] at h; cases h
    | some p =>
      rw [hs] at h
      exact ih h (stepRow_error_mono hs he)

theorem parseGrid_error_mono {t : Timetable} {rows : List Row} {t' : Timetable}
    (h : parseGrid t rows = some t') (he : t.Error = true) : t'.Error = true := by
  unfold parseGrid at h
  cases hf : foldRows (-1) t rows with
  | none => rw [hf] at h; cases h
  | some p =>
    rw [hf] at h
    cases h
    exact foldRows_error_mono rows hf he

theorem gridsFold_error_mono :
    ∀ (grids : List (List Row)) {t t' : Timetable},
      List.foldlM parseGrid t grids = some t' → t.Error = true → t'.Error = true := by
  intro grids
  induction grids with
  | nil => intro t t' h he; cases h; exact he
  | cons g gs ih =>
    intro t t' h he
    rw [foldlM_opt_cons] at h
    cases hg : parseGrid t g with
    | none => rw [hg] at h; cases h
    | some u =>
      rw [hg] at h
      exact ih h (parseGrid_error_mono hg he)

theorem hdDate_freeTimes {t : Timetable} {s : String} {t' : Timetable}
    (h : hdDate t s = some t') : t'.FreeTimes = t.FreeTimes ∧ t'.Empty = t.Empty := by
  unfold hdDate at h
  split at h
  · split at h
    · cases h; exact ⟨rfl, rfl⟩
    · cases h
  · cases h; exact ⟨rfl, rfl⟩

theorem hdRoom_freeTimes {t : Timetable} {s : String} {t' : Timetable}
    (h : hdRoom t s = some t') : t'.FreeTimes = t.FreeTimes ∧ t'.Empty = t.Empty := by
  unfold hdRoom at h
  split at h
  · split at h
    · cases h; exact ⟨rfl, rfl⟩
    · cases h
  · cases h; exact ⟨rfl, rfl⟩

theorem hdWeek_freeTimes {t : Timetable} {s : String} {t' : Timetable}
    (h : hdWeek t s = some t') : t'.FreeTimes = t.FreeTimes ∧ t'.Empty = t.Empty := by
  unfold hdWeek at h
  split at h
  · split at h
    · cases h; exact ⟨rfl, rfl⟩
    · cases h
  · cases h; exact ⟨rfl, rfl⟩

theorem applyHeader_freeTimes {t : Timetable} {h : Header} {t' : Timetable}
    (ha : applyHeader t h = some t') :
    t'.FreeTimes = t.FreeTimes ∧ t'.Empty = t.Empty := by
  unfold applyHeader at ha
  rw [Option.bind_eq_some] at ha
  obtain ⟨t₁, h₁, ha⟩ := ha
  rw [Option.bind_eq_some] at ha
  obtain ⟨t₂, h₂, h₃⟩ := ha
  obtain ⟨f₁, e₁⟩ := hdDate_freeTimes h₁
  obtain ⟨f₂, e₂⟩ := hdRoom_freeTimes h₂
  obtain ⟨f₃, e₃⟩ := hdWeek_freeTimes h₃
  exact ⟨f₃.trans (f₂.trans f₁), e₃.trans (e₂.trans e₁)⟩

theorem headersFold_freeTimes :
    ∀ (hs : List Header) {t t' : Timetable},
      List.foldlM applyHeader t hs = some t' →
      t'.FreeTimes = t.FreeTimes ∧ t'.Empty = t.Empty := by
  intro hs
  induction hs with
  | nil => intro t t' h; cases h; exact ⟨rfl, rfl⟩
  | cons hd tl ih =>
    intro t t' h
    rw [foldlM_opt_cons] at h
    cases ha : applyHeader t hd with
    | none => rw [ha] at h; cases h
    | some u =>
      rw [ha] at h
      obtain ⟨f₁, e₁⟩ := ih h
      obtain ⟨f₂, e₂⟩ := applyHeader_freeTimes ha
      exact ⟨f₁.trans f₂, e₁.trans e₂⟩

theorem mapAppend_totalFree (m : List (String × List String)) (k v : String) :
    totalFree (mapAppend m k v) = totalFree m + 1 := by
  induction m with
  | nil => rfl
  | cons p rest ih =>
    obtain ⟨k₀, vs⟩ := p
    unfold mapAppend
    split
    · simp only [totalFree, List.map_cons, List.sum_cons, List.length_append,
        List.length_singleton]
      omega
    · simp only [totalFree, List.map_cons, List.sum_cons] at ih ⊢
      omega

theorem foldRows_totalFree :
    ∀ (rows : List Row) (d : Int) (t : Timetable) (d' : Int) (t' : Timetable),
      -1 ≤ d → foldRows d t rows = some (d', t') →
      totalFree t'.FreeTimes = totalFree t.FreeTimes + countFreeAfter (decide (0 ≤ d)) rows := by
  intro rows
  induction rows with
  | nil =>
    intro d t d' t' hd h
    unfold foldRows at h
    cases h
    simp [countFreeAfter]
  | cons r rs ih =>
    intro d t d' t' hd h
    unfold foldRows at h
    unfold countFreeAfter
    cases hs : stepRow d t r with
    | none => rw [hs] at h; cases h
    | some p =>
      obtain ⟨d₁, t₁⟩ := p
      rw [hs, Option.some_bind] at h
      unfold stepRow at hs
      split at hs
      case isTrue hc1 =>
        cases hs
        have hseen : decide ((0 : Int) ≤ d + 1) = true := by
          rw [decide_eq_true_eq]; omega
        have hr := ih (d + 1) t d' t' (by omega) h
        rw [hseen] at hr
        rw [if_pos hc1, hr]
      case isFalse hc1 =>
        split at hs
        case isTrue hc2 =>
          cases hs
          have hr := ih d _ d' t' hd h
          rw [if_neg hc1, if_pos hc2, hr]
        case isFalse hc2 =>
          split at hs
          case isTrue hc3 =>
            cases hs
            subst hc3
            have hr := ih (-1) _ d' t' (by omega) h
            have hseen : decide ((0 : Int) ≤ -1) = false := by decide
            rw [hseen] at hr ⊢
            rw [if_neg hc1, if_neg hc2, hr]
            simp [totalFree]
          case isFalse hc3 =>
            split at hs
            case isTrue hc4 => cases hs
            case isFalse hc4 =>
              split at hs
              case h_1 dayName hget =>
                cases hs
                have hr := ih d _ d' t' hd h
                have hseen : decide ((0 : Int) ≤ d) = true := by
                  rw [decide_eq_true_eq]; omega
                rw [hseen] at hr ⊢
                rw [if_neg hc1, if_neg hc2, hr]
                show totalFree (mapAppend t.FreeTimes dayName r.time) + _ = _
                rw [mapAppend_totalFree]
                simp only [if_pos trivial]
                omega
              case h_2 hget => cases hs

theorem gridsFold_totalFree :
    ∀ (grids : List (List Row)) (t t' : Timetable),
      List.foldlM parseGrid t grids = some t' →
      totalFree t'.FreeTimes =
        totalFree t.FreeTimes + (grids.map fun g => countFreeAfter false g).sum := by
  intro grids
  induction grids with
  | nil => intro t t' h; cases h; simp
  | cons g gs ih =>
    intro t t' h
    rw [foldlM_opt_cons] at h
    cases hg : parseGrid t g with
    | none => rw [hg] at h; cases h
    | some u =>
      rw [hg] at h
      unfold parseGrid at hg
      cases hf : foldRows (-1) t g with
      | none => rw [hf] at hg; cases hg
      | some p =>
        rw [hf] at hg
        cases hg
        have h1 := foldRows_totalFree g (-1) t p.1 p.2 (by omega) (by simpa using hf)
        have h2 := ih _ _ h
        rw [h2, h1]
        have : decide ((0 : Int) ≤ -1) = false := by decide
        rw [this]
        simp [Nat.add_assoc]

theorem stepRow_free_neg (t : Timetable) (r : Row) (hf : isFreeRow r = true) :
    stepRow (-1) t r = some (-1, { t with Error := true }) := by
  unfold isFreeRow at hf
  rw [Bool.and_eq_true, Bool.not_eq_true'] at hf
  obtain ⟨h₁, h₂⟩ := hf
  unfold stepRow
  rw [h₁]
  simp only [beq_iff_eq] at h₂
  simp [h₂]

theorem foldRows_noMarker :
    ∀ (rows : List Row) (t : Timetable) (d' : Int) (t' : Timetable),
      (∀ r ∈ rows, isMarkerRow r = false) → foldRows (-1) t rows = some (d', t') →
      d' = -1 ∧ t'.FreeTimes = t.FreeTimes := by
  intro rows
  induction rows with
  | nil =>
    intro t d' t' _ h
    unfold foldRows at h
    cases h
    exact ⟨rfl, rfl⟩
  | cons r rs ih =>
    intro t d' t' hm h
    unfold foldRows at h
    have hr : isMarkerRow r = false := hm r (List.mem_cons_self r rs)
    unfold isMarkerRow at hr
    cases hs : stepRow (-1) t r with
    | none => rw [hs] at h; cases h
    | some p =>
      obtain ⟨d₁, t₁⟩ := p
      rw [hs, Option.some_bind] at h
      unfold stepRow at hs
      rw [hr] at hs
      simp only [Bool.false_eq_true, if_false] at hs
      split at hs
      · cases hs
        have hr := ih _ d' t' (fun x hx => hm x (List.mem_cons_of_mem r hx)) h
        exact ⟨hr.1, hr.2⟩
      · split at hs
        · cases hs
          have hr := ih _ d' t' (fun x hx => hm x (List.mem_cons_of_mem r hx)) h
          exact ⟨hr.1, hr.2⟩
        · case isFalse hc => exact absurd trivial hc

theorem foldRows_append :
    ∀ (xs ys : List Row) (d : Int) (t : Timetable),
      foldRows d t (xs ++ ys) = (foldRows d t xs).bind fun p => foldRows p.1 p.2 ys := by
  intro xs
  induction xs with
  | nil => intro ys d t; rfl
  | cons r rs ih =>
    intro ys d t
    calc foldRows d t ((r :: rs) ++ ys)
        = (stepRow d t r).bind fun p => foldRows p.1 p.2 (rs ++ ys) := rfl
      _ = (stepRow d t r).bind fun p =>
            (foldRows p.1 p.2 rs).bind fun q => foldRows q.1 q.2 ys := by
          cases hs : stepRow d t r with
          | none => rfl
          | some p =>
            rw [Option.some_bind, Option.some_bind]
            exact ih ys p.1 p.2
      _ = ((stepRow d t r).bind fun p => foldRows p.1 p.2 rs).bind
            fun q => foldRows q.1 q.2 ys := (Option.bind_assoc _ _ _).symm
      _ = (foldRows d t (r :: rs)).bind fun p => foldRows p.1 p.2 ys := rfl

theorem mapGet_mapAppend (m : List (String × List String)) (k v k' : String) :
    mapGet (mapAppend m k v) k' = mapGet m k' ++ (if k = k' then [v] else []) := by
  induction m with
  | nil =>
    show mapGet [(k, [v])] k' = mapGet [] k' ++ _
    by_cases hk : k = k' <;> simp [mapGet, hk]
  | cons p rest ih =>
    obtain ⟨k₀, vs⟩ := p
    unfold mapAppend
    by_cases h₀ : k₀ = k
    · rw [if_pos h₀]
      by_cases h₁ : k₀ = k'
      · have hk : k = k' := h₀ ▸ h₁
        simp [mapGet, h₁, hk]
      · have hk : ¬(k = k') := fun he => h₁ (h₀.symm ▸ he : k₀ = k')
        simp [mapGet, h₁, hk]
    · rw [if_neg h₀]
      by_cases h₁ : k₀ = k'
      · have hk : ¬(k = k') := fun he => h₀ (h₁.trans he.symm ▸ rfl)
        simp [mapGet, h₁, hk]
      · simp [mapGet, h₁, ih]

theorem tableGet_tableAppend (fr : FreeRoomTable) (day ti r d' ti' : String) :
    tableGet (tableAppend fr day ti r) d' ti' =
      tableGet fr d' ti' ++ (if day = d' ∧ ti = ti' then [r] else []) := by
  induction fr with
  | nil =>
    show tableGet [(day, mapAppend [] ti r)] d' ti' = tableGet [] d' ti' ++ _
    by_cases hd : day = d'
    · by_cases ht : ti = ti' <;>
        simp [tableGet, mapGet_mapAppend, mapGet, hd, ht]
    · simp [tableGet, hd]
  | cons p rest ih =>
    obtain ⟨d₀, b⟩ := p
    unfold tableAppend
    by_cases h₀ : d₀ = day
    · rw [if_pos h₀]
      by_cases h₁ : d₀ = d'
      · have hd : day = d' := h₀ ▸ h₁
        by_cases ht : ti = ti' <;>
          simp [tableGet, h₁, hd, ht, mapGet_mapAppend]
      · have hd : ¬(day = d') := fun he => h₁ (h₀.trans he)
        simp [tableGet, h₁, hd]
    · rw [if_neg h₀]
      by_cases h₁ : d₀ = d'
      · have hd : ¬(day = d') := fun he => h₀ (h₁ ▸ he ▸ rfl : d₀ = day)
        simp [tableGet, h₁, hd]
      · simp [tableGet, h₁, ih]

theorem tableGet_foldTimes (day r : String) :
    ∀ (L : List String) (fr : FreeRoomTable) (d' ti' : String),
      tableGet (L.foldl (fun fr time => tableAppend fr day time r) fr) d' ti' =
        tableGet fr d' ti' ++
          (if day = d' then List.replicate (L.count ti') r else []) := by
  intro L
  induction L with
  | nil => intro fr d' ti'; simp
  | cons ti L ih =>
    intro fr d' ti'
    show tableGet (L.foldl _ (tableAppend fr day ti r)) d' ti' = _
    rw [ih, tableGet_tableAppend, List.append_assoc]
    by_cases hd : day = d'
    · by_cases ht : ti = ti'
      · simp [hd, ht, List.count_cons, List.replicate_succ]
      · have : ¬(ti' == ti) := by simpa [beq_iff_eq] using fun he => ht he.symm
        simp [hd, ht, List.count_cons, this]
    · simp [hd]

theorem tableGet_foldDaysNodup (ft : List (String × List String)) (r : String) :
    ∀ (L : List String), L.Nodup →
      ∀ (fr : FreeRoomTable) (d' ti' : String),
        tableGet
            (L.foldl
              (fun fr day =>
                (mapGet ft day).foldl (fun fr time => tableAppend fr day time r) fr)
              fr)
            d' ti' =
          tableGet fr d' ti' ++
            (if d' ∈ L then List.replicate ((mapGet ft d').count ti') r else []) := by
  intro L
  induction L with
  | nil => intro _ fr d' ti'; simp
  | cons x xs ih =>
    intro hnd fr d' ti'
    obtain ⟨hx, hxs⟩ := List.nodup_cons.mp hnd
    show tableGet (xs.foldl _ ((mapGet ft x).foldl _ fr)) d' ti' = _
    rw [ih hxs, tableGet_foldTimes, List.append_assoc]
    by_cases hd : x = d'
    · subst hd
      simp [hx]
    · have hmem : (d' ∈ x :: xs) ↔ (d' ∈ xs) := by
        rw [List.mem_cons]
        constructor
        · rintro (he | h)
          · exact absurd he.symm hd
          · exact h
        · exact Or.inr
      simp [hd, hmem]

theorem tableGet_aggTimetable (fr : FreeRoomTable) (t : Timetable) (d ti : String) :
    tableGet (aggTimetable fr t) d ti = tableGet fr d ti ++ contrib t d ti := by
  unfold aggTimetable contrib
  rw [tableGet_foldDaysNodup t.FreeTimes t.Room days (by decide)]

theorem tableGet_aggFold :
    ∀ (ts : List Timetable) (fr : FreeRoomTable) (d ti : String),
      tableGet (ts.foldl aggTimetable fr) d ti =
        tableGet fr d ti ++ (ts.map fun t => contrib t d ti).flatten := by
  intro ts
  induction ts with
  | nil => intro fr d ti; simp
  | cons t rest ih =>
    intro fr d ti
    show tableGet (rest.foldl aggTimetable (aggTimetable fr t)) d ti = _
    rw [ih, tableGet_aggTimetable, List.map_cons, List.flatten, List.append_assoc]

theorem tableGet_aggregate (ts : List Timetable) (d ti : String) :
    tableGet (aggregate ts) d ti = (ts.map fun t => contrib t d ti).flatten := by
  unfold aggregate
  rw [tableGet_aggFold]
  rfl

theorem mapAppend_keys (m : List (String × List String)) (k v : String) :
    ∀ k', k' ∈ mapKeys (mapAppend m k v) → k' ∈ mapKeys m ∨ k' = k := by
  induction m with
  | nil =>
    intro k' h
    right
    simpa [mapAppend, mapKeys] using h
  | cons p rest ih =>
    obtain ⟨k₀, vs⟩ := p
    intro k' h
    unfold mapAppend at h
    split at h
    · left; exact h
    · have h' : k' ∈ k₀ :: mapKeys (mapAppend rest k v) := h
      rcases List.mem_cons.mp h' with he | hm
      · left
        exact (show k' ∈ k₀ :: mapKeys rest from List.mem_cons.mpr (Or.inl he))
      · rcases ih k' hm with hl | hr
        · left; exact List.mem_cons_of_mem _ hl
        · right; exact hr

theorem stepRow_keys {d : Int} {t : Timetable} {r : Row} {d' : Int} {t' : Timetable}
    (hs : stepRow d t r = some (d', t')) :
    ∀ k, k ∈ mapKeys t'.FreeTimes → k ∈ mapKeys t.FreeTimes ∨ k ∈ days := by
  intro k hk
  unfold stepRow at hs
  split at hs
  · cases hs; exact Or.inl hk
  · split at hs
    · cases hs; exact Or.inl hk
    · split at hs
      · cases hs; exact Or.inl hk
      · split at hs
        · cases hs
        · split at hs
          case h_1 dayName hget =>
            cases hs
            rcases mapAppend_keys t.FreeTimes dayName r.time k hk with hl | he
            · exact Or.inl hl
            · exact Or.inr (he ▸ List.get?_mem hget)
          case h_2 => cases hs

theorem foldRows_keys :
    ∀ (rows : List Row) {d : Int} {t : Timetable} {d' : Int} {t' : Timetable},
      foldRows d t rows = some (d', t') →
      ∀ k, k ∈ mapKeys t'.FreeTimes → k ∈ mapKeys t.FreeTimes ∨ k ∈ days := by
  intro rows
  induction rows with
  | nil =>
    intro d t d' t' h k hk
    cases h
    exact Or.inl hk
  | cons r rs ih =>
    intro d t d' t' h k hk
    unfold foldRows at h
    cases hs : stepRow d t r with
    | none => rw [hs] at h; cases h
    | some p =>
      obtain ⟨d₁, t₁⟩ := p
      rw [hs, Option.some_bind] at h
      rcases ih h k hk with hl | hr
      · exact stepRow_keys hs k hl
      · exact Or.inr hr

theorem gridsFold_keys :
    ∀ (grids : List (List Row)) {t t' : Timetable},
      List.foldlM parseGrid t grids = some t' →
      ∀ k, k ∈ mapKeys t'.FreeTimes → k ∈ mapKeys t.FreeTimes ∨ k ∈ days := by
  intro grids
  induction grids with
  | nil =>
    intro t t' h k hk
    cases h
    exact Or.inl hk
  | cons g gs ih =>
    intro t t' h k hk
    rw [foldlM_opt_cons] at h
    cases hg : parseGrid t g with
    | none => rw [hg] at h; cases h
    | some u =>
      rw [hg] at h
      rcases ih h k hk with hl | hr
      · unfold parseGrid at hg
        cases hf : foldRows (-1) t g with
        | none => rw [hf] at hg; cases hg
        | some p =>
          rw [hf] at hg
          cases hg
          exact foldRows_keys g (by simpa using hf) k hl
      · exact Or.inr hr

theorem parse_keys {doc : Doc} {t : Timetable} (h : parseTimetable doc = some t) :
    ∀ k, k ∈ mapKeys t.FreeTimes → k ∈ days := by
  intro k hk
  rw [parseTimetable_eq, Option.bind_eq_some] at h
  obtain ⟨t₁, h₁, h₂⟩ := h
  rcases gridsFold_keys doc.grids h₂ k hk with hl | hr
  · rw [(headersFold_freeTimes doc.headers h₁).1] at hl
    cases hl
  · exact hr

theorem tableAppend_keys (fr : FreeRoomTable) (day ti r : String) :
    ∀ k, k ∈ (tableAppend fr day ti r).map Prod.fst → k ∈ fr.map Prod.fst ∨ k = day := by
  induction fr with
  | nil =>
    intro k h
    right
    simpa [tableAppend] using h
  | cons p rest ih =>
    obtain ⟨d₀, b⟩ := p
    intro k h
    unfold tableAppend at h
    split at h
    · left; exact h
    · have h' : k ∈ d₀ :: (tableAppend rest day ti r).map Prod.fst := h
      rcases List.mem_cons.mp h' with he | hm
      · left
        exact (show k ∈ d₀ :: rest.map Prod.fst from List.mem_cons.mpr (Or.inl he))
      · rcases ih k hm with hl | hr
        · left; exact List.mem_cons_of_mem _ hl
        · right; exact hr

theorem foldTimes_keys (day r : String) :
    ∀ (L : List String) (fr : FreeRoomTable) (k : String),
      k ∈ ((L.foldl (fun fr time => tableAppend fr day time r) fr).map Prod.fst) →
      k ∈ fr.map Prod.fst ∨ k = day := by
  intro L
  induction L with
  | nil => intro fr k h; exact Or.inl h
  | cons ti ts ih =>
    intro fr k h
    rcases ih (tableAppend fr day ti r) k h with hl | hr
    · exact tableAppend_keys fr day ti r k hl
    · exact Or.inr hr

theorem aggTimetable_keys (t : Timetable) :
    ∀ (L : List String) (fr : FreeRoomTable) (k : String),
      k ∈ ((L.foldl
          (fun fr day =>
            (mapGet t.FreeTimes day).foldl (fun fr time => tableAppend fr day time t.Room) fr)
          fr).map Prod.fst) →
      k ∈ fr.map Prod.fst ∨ k ∈ L := by
  intro L
  induction L with
  | nil => intro fr k h; exact Or.inl h
  | cons x xs ih =>
    intro fr k h
    rcases ih _ k h with hl | hr
    · rcases foldTimes_keys x t.Room (mapGet t.FreeTimes x) fr k hl with hfl | hfr
      · exact Or.inl hfl
      · exact Or.inr (by simp [hfr])
    · exact Or.inr (List.mem_cons_of_mem x hr)

theorem aggFold_keys :
    ∀ (ts : List Timetable) (fr : FreeRoomTable) (k : String),
      k ∈ ((ts.foldl aggTimetable fr).map Prod.fst) → k ∈ fr.map Prod.fst ∨ k ∈ days := by
  intro ts
  induction ts with
  | nil => intro fr k h; exact Or.inl h
  | cons t rest ih =>
    intro fr k h
    rcases ih (aggTimetable fr t) k h with hl | hr
    · exact aggTimetable_keys t days fr k hl
    · exact Or.inr hr

theorem hdDate_isSome (t : Timetable) (s : String)
    (hg : s ≠ "" → 2 ≤ (splitSp s).length) : (hdDate t s).isSome := by
  unfold hdDate
  split
  case isTrue hne =>
    cases hget : (splitSp s).get? 1 with
    | none =>
      have := List.get?_eq_none.mp hget
      have := hg hne
      omega
    | some d => simp [hget]
  case isFalse => simp

theorem hdRoom_isSome (t : Timetable) (s : String)
    (hg : s ≠ "" → 3 ≤ (splitSp s).length) : (hdRoom t s).isSome := by
  unfold hdRoom
  split
  case isTrue hne =>
    cases hget : (splitSp s).get? 2 with
    | none =>
      have := List.get?_eq_none.mp hget
      have := hg hne
      omega
    | some r => simp [hget]
  case isFalse => simp

theorem hdWeek_isSome (t : Timetable) (s : String)
    (hg : s ≠ "" → 3 ≤ (splitSp s).length) : (hdWeek t s).isSome := by
  unfold hdWeek
  split
  case isTrue hne =>
    cases hget : (splitSp s).get? 2 with
    | none =>
      have := List.get?_eq_none.mp hget
      have := hg hne
      omega
    | some w => simp [hget]
  case isFalse => simp

theorem applyHeader_isSome (t : Timetable) (h : Header) (hg : goodHeader h) :
    (applyHeader t h).isSome := by
  obtain ⟨hg₁, hg₂, hg₃⟩ := hg
  unfold applyHeader
  obtain ⟨t₁, e₁⟩ := Option.isSome_iff_exists.mp (hdDate_isSome t h.date hg₁)
  rw [e₁, Option.some_bind]
  obtain ⟨t₂, e₂⟩ := Option.isSome_iff_exists.mp (hdRoom_isSome t₁ h.room hg₂)
  rw [e₂, Option.some_bind]
  exact hdWeek_isSome t₂ h.week hg₃

theorem headersFold_isSome :
    ∀ (hs : List Header) (t : Timetable), (∀ h ∈ hs, goodHeader h) →
      (List.foldlM applyHeader t hs).isSome := by
  intro hs
  induction hs with
  | nil => intro t _; simp
  | cons hd tl ih =>
    intro t hg
    rw [foldlM_opt_cons]
    obtain ⟨t₁, e₁⟩ := Option.isSome_iff_exists.mp
      (applyHeader_isSome t hd (hg hd (List.mem_cons_self hd tl)))
    rw [e₁, Option.some_bind]
    exact ih t₁ fun x hx => hg x (List.mem_cons_of_mem hd hx)

theorem foldRows_isSome :
    ∀ (rows : List Row) (d : Int) (t : Timetable), -1 ≤ d →
      d + (countMarkers rows : Int) ≤ 4 → (foldRows d t rows).isSome := by
  intro rows
  induction rows with
  | nil => intro d t _ _; simp [foldRows]
  | cons r rs ih =>
    intro d t hd hc
    unfold foldRows stepRow
    by_cases h₁ : days.contains r.dayLabel = true
    · rw [if_pos h₁]
      rw [Option.some_bind]
      have hcnt : countMarkers (r :: rs) = countMarkers rs + 1 := by
        have hm : r.dayLabel ∈ days := by simpa using h₁
        unfold countMarkers
        rw [List.countP_cons]
        simp [hm]
      rw [hcnt] at hc
      push_cast at hc
      exact ih (d + 1) t (by omega) (by omega)
    · rw [if_neg h₁]
      have hcnt : countMarkers (r :: rs) = countMarkers rs := by
        have hm : r.dayLabel ∉ days := by simpa using h₁
        unfold countMarkers
        rw [List.countP_cons]
        simp [hm]
      rw [hcnt] at hc
      by_cases h₂ : r.subject ≠ ""
      · rw [if_pos h₂, Option.some_bind]
        exact ih d _ hd hc
      · rw [if_neg h₂]
        by_cases h₃ : d = -1
        · rw [if_pos h₃, Option.some_bind]
          exact ih d _ hd (by omega)
        · rw [if_neg h₃]
          have h0 : (0 : Int) ≤ d := by omega
          rw [if_neg (by omega : ¬d < 0)]
          have hlt : d.toNat < days.length := by
            show d.toNat < 5
            omega
          rw [List.get?_eq_get hlt, Option.some_bind]
          exact ih d _ hd hc

theorem gridsFold_isSome :
    ∀ (grids : List (List Row)) (t : Timetable), (∀ g ∈ grids, countMarkers g ≤ 5) →
      (List.foldlM parseGrid t grids).isSome := by
  intro grids
  induction grids with
  | nil => intro t _; simp
  | cons g gs ih =>
    intro t hg
    rw [foldlM_opt_cons]
    have h₁ : (foldRows (-1) t g).isSome := by
      apply foldRows_isSome g (-1) t (by omega)
      have := hg g (List.mem_cons_self g gs)
      omega
    obtain ⟨p, ep⟩ := Option.isSome_iff_exists.mp h₁
    obtain ⟨pd, pt⟩ := p
    have hpg : parseGrid t g = some pt := by
      unfold parseGrid
      rw [ep]
      rfl
    rw [hpg, Option.some_bind]
    exact ih pt fun x hx => hg x (List.mem_cons_of_mem g hx)

theorem parse_isSome (doc : Doc) (hh : ∀ h ∈ doc.headers, goodHeader h)
    (hg : ∀ g ∈ doc.grids, countMarkers g ≤ 5) : (parseTimetable doc).isSome := by
  rw [parseTimetable_eq]
  obtain ⟨t₁, e₁⟩ := Option.isSome_iff_exists.mp
    (headersFold_isSome doc.headers _ hh)
  rw [e₁, Option.some_bind]
  exact gridsFold_isSome doc.grids t₁ hg

theorem hdDate_rw {t : Timetable} {s : String} {u : Timetable}
    (h : hdDate t s = some u) :
    u.Room = t.Room ∧ u.Week = t.Week ∧ u.Empty = t.Empty ∧ u.FreeTimes = t.FreeTimes := by
  unfold hdDate at h
  split at h
  · split at h
    · cases h; exact ⟨rfl, rfl, rfl, rfl⟩
    · cases h
  · cases h; exact ⟨rfl, rfl, rfl, rfl⟩

theorem hdDate_par {t t' u u' : Timetable} {s s' : String} (h : eqRW t t')
    (h₁ : hdDate t s = some u) (h₂ : hdDate t' s' = some u') : eqRW u u' := by
  obtain ⟨hR, hW, hE, hF⟩ := h
  obtain ⟨a₁, a₂, a₃, a₄⟩ := hdDate_rw h₁
  obtain ⟨b₁, b₂, b₃, b₄⟩ := hdDate_rw h₂
  exact ⟨a₁.trans (hR.trans b₁.symm), a₂.trans (hW.trans b₂.symm),
    a₃.trans (hE.trans b₃.symm), a₄.trans (hF.trans b₄.symm)⟩

theorem hdRoom_par {t t' u u' : Timetable} {s : String} (h : eqRW t t')
    (h₁ : hdRoom t s = some u) (h₂ : hdRoom t' s = some u') : eqRW u u' := by
  obtain ⟨hR, hW, hE, hF⟩ := h
  unfold hdRoom at h₁ h₂
  by_cases hne : s ≠ ""
  · rw [if_pos hne] at h₁ h₂
    cases hget : (splitSp s).get? 2 with
    | none => rw [hget] at h₁; cases h₁
    | some r =>
      rw [hget] at h₁ h₂
      cases h₁; cases h₂
      exact ⟨rfl, hW, hE, hF⟩
  · rw [if_neg hne] at h₁ h₂
    cases h₁; cases h₂
    exact ⟨hR, hW, hE, hF⟩

theorem hdWeek_par {t t' u u' : Timetable} {s : String} (h : eqRW t t')
    (h₁ : hdWeek t s = some u) (h₂ : hdWeek t' s = some u') : eqRW u u' := by
  obtain ⟨hR, hW, hE, hF⟩ := h
  unfold hdWeek at h₁ h₂
  by_cases hne : s ≠ ""
  · rw [if_pos hne] at h₁ h₂
    cases hget : (splitSp s).get? 2 with
    | none => rw [hget] at h₁; cases h₁
    | some w =>
      rw [hget] at h₁ h₂
      cases h₁; cases h₂
      exact ⟨hR, rfl, hE, hF⟩
  · rw [if_neg hne] at h₁ h₂
    cases h₁; cases h₂
    exact ⟨hR, hW, hE, hF⟩

theorem applyHeader_par {t t' u u' : Timetable} {d₁ d₂ r w : String} (h : eqRW t t')
    (h₁ : applyHeader t ⟨d₁, r, w⟩ = some u) (h₂ : applyHeader t' ⟨d₂, r, w⟩ = some u') :
    eqRW u u' := by
  unfold applyHeader at h₁ h₂
  rw [Option.bind_eq_some] at h₁ h₂
  obtain ⟨x₁, hx₁, h₁⟩ := h₁
  obtain ⟨y₁, hy₁, h₂⟩ := h₂
  rw [Option.bind_eq_some] at h₁ h₂
  obtain ⟨x₂, hx₂, h₁⟩ := h₁
  obtain ⟨y₂, hy₂, h₂⟩ := h₂
  exact hdWeek_par (hdRoom_par (hdDate_par h hx₁ hy₁) hx₂ hy₂) h₁ h₂

theorem stepRow_par {d : Int} {t t' : Timetable} {r : Row} (h : eqRW t t')
    {p p' : Int × Timetable}
    (h₁ : stepRow d t r = some p) (h₂ : stepRow d t' r = some p') :
    p.1 = p'.1 ∧ eqRW p.2 p'.2 := by
  obtain ⟨hR, hW, hE, hF⟩ := h
  unfold stepRow at h₁ h₂
  by_cases c₁ : days.contains r.dayLabel = true
  · rw [if_pos c₁] at h₁ h₂
    cases h₁; cases h₂
    exact ⟨rfl, hR, hW, hE, hF⟩
  · rw [if_neg c₁] at h₁ h₂
    by_cases c₂ : r.subject ≠ ""
    · rw [if_pos c₂] at h₁ h₂
      cases h₁; cases h₂
      exact ⟨rfl, hR, hW, rfl, hF⟩
    · rw [if_neg c₂] at h₁ h₂
      by_cases c₃ : d = -1
      · rw [if_pos c₃] at h₁ h₂
        cases h₁; cases h₂
        exact ⟨rfl, hR, hW, hE, hF⟩
      · rw [if_neg c₃] at h₁ h₂
        by_cases c₄ : d < 0
        · rw [if_pos c₄] at h₁; cases h₁
        · rw [if_neg c₄] at h₁ h₂
          cases hget : days.get? d.toNat with
          | none => rw [hget] at h₁; cases h₁
          | some dayName =>
            rw [hget] at h₁ h₂
            cases h₁; cases h₂
            exact ⟨rfl, hR, hW, hE, by rw [hF]⟩

theorem foldRows_par :
    ∀ (rows : List Row) (d : Int) (t t' : Timetable), eqRW t t' →
      ∀ {p p' : Int × Timetable},
        foldRows d t rows = some p → foldRows d t' rows = some p' →
        p.1 = p'.1 ∧ eqRW p.2 p'.2 := by
  intro rows
  induction rows with
  | nil =>
    intro d t t' h p p' h₁ h₂
    cases h₁; cases h₂
    exact ⟨rfl, h⟩
  | cons r rs ih =>
    intro d t t' h p p' h₁ h₂
    unfold foldRows at h₁ h₂
    cases hs₁ : stepRow d t r with
    | none => rw [hs₁] at h₁; cases h₁
    | some q =>
      cases hs₂ : stepRow d t' r with
      | none => rw [hs₂] at h₂; cases h₂
      | some q' =>
        rw [hs₁, Option.some_bind] at h₁
        rw [hs₂, Option.some_bind] at h₂
        obtain ⟨hq1, hq2⟩ := stepRow_par ⟨h.1, h.2.1, h.2.2.1, h.2.2.2⟩ hs₁ hs₂
        rw [← hq1] at h₂
        exact ih q.1 q.2 q'.2 hq2 h₁ h₂

theorem parseGrid_par {t t' u u' : Timetable} {rows : List Row} (h : eqRW t t')
    (h₁ : parseGrid t rows = some u) (h₂ : parseGrid t' rows = some u') : eqRW u u' := by
  unfold parseGrid at h₁ h₂
  cases hf₁ : foldRows (-1) t rows with
  | none => rw [hf₁] at h₁; cases h₁
  | some p =>
    cases hf₂ : foldRows (-1) t' rows with
    | none => rw [hf₂] at h₂; cases h₂
    | some p' =>
      obtain ⟨pd, pt⟩ := p
      obtain ⟨pd', pt'⟩ := p'
      rw [hf₁] at h₁
      rw [hf₂] at h₂
      replace h₁ : some pt = some u := h₁
      replace h₂ : some pt' = some u' := h₂
      cases h₁; cases h₂
      exact (foldRows_par rows (-1) t t' h hf₁ hf₂).2

theorem gridsFold_par :
    ∀ (grids : List (List Row)) (t t' u u' : Timetable), eqRW t t' →
      List.foldlM parseGrid t grids = some u →
      List.foldlM parseGrid t' grids = some u' → eqRW u u' := by
  intro grids
  induction grids with
  | nil =>
    intro t t' u u' h h₁ h₂
    cases h₁; cases h₂
    exact h
  | cons g gs ih =>
    intro t t' u u' h h₁ h₂
    rw [foldlM_opt_cons] at h₁ h₂
    cases hg₁ : parseGrid t g with
    | none => rw [hg₁] at h₁; cases h₁
    | some v =>
      cases hg₂ : parseGrid t' g with
      | none => rw [hg₂] at h₂; cases h₂
      | some v' =>
        rw [hg₁, Option.some_bind] at h₁
        rw [hg₂, Option.some_bind] at h₂
        exact ih v v' u u' (parseGrid_par h hg₁ hg₂) h₁ h₂

theorem hdDate_empty (t : Timetable) : hdDate t "" = some { t with Error := true } := by
  unfold hdDate
  simp

theorem hdRoom_error_mono {t u : Timetable} {s : String} (h : hdRoom t s = some u)
    (he : t.Error = true) : u.Error = true := by
  unfold hdRoom at h
  split at h
  · split at h
    · cases h; exact he
    · cases h
  · cases h; rfl

theorem hdWeek_error_mono {t u : Timetable} {s : String} (h : hdWeek t s = some u)
    (he : t.Error = true) : u.Error = true := by
  unfold hdWeek at h
  split at h
  · split at h
    · cases h; exact he
    · cases h
  · cases h; rfl

theorem runRooms_filter (fetch : String → Option Doc) :
    ∀ (rooms : List String) (acc : List Timetable),
      runRooms fetch rooms acc =
        runRooms fetch (rooms.filter fun r => (fetch r).isSome) acc := by
  intro rooms
  induction rooms with
  | nil => intro acc; rfl
  | cons r rs ih =>
    intro acc
    cases hf : fetch r with
    | none =>
      have hfil : (r :: rs).filter (fun r => (fetch r).isSome) =
          rs.filter fun r => (fetch r).isSome := by
        rw [List.filter_cons]
        simp [hf]
      rw [hfil]
      simp only [runRooms, hf]
      exact ih acc
    | some doc =>
      have hfil : (r :: rs).filter (fun r => (fetch r).isSome) =
          r :: rs.filter fun r => (fetch r).isSome := by
        rw [List.filter_cons]
        simp [hf]
      rw [hfil]
      simp only [runRooms, hf]
      cases hp : parseTimetable doc with
      | none => rfl
      | some t => exact ih (acc ++ [t])

theorem runRoomsExit_fatal (fetch : String → Option Doc) :
    ∀ (rooms : List String) (acc : List Timetable) (r : String),
      r ∈ rooms → fetch r = none → runRoomsExit fetch rooms acc = none := by
  intro rooms
  induction rooms with
  | nil => intro acc r h; cases h
  | cons x xs ih =>
    intro acc r hmem hf
    rcases List.mem_cons.mp hmem with he | hin
    · subst he
      simp only [runRoomsExit, hf]
    · cases hx : fetch x with
      | none => simp only [runRoomsExit, hx]
      | some doc =>
        simp only [runRoomsExit, hx]
        cases hp : parseTimetable doc with
        | none => rfl
        | some t => exact ih (acc ++ [t]) r hin hf

/-- C1 (counterexample): the claim says any free-or-subject row reaching the
grid while `currentDay = -1` sets `hasError`; but a grid beginning with a
subject row (day-label not a weekday, subject cell non-empty) parses with
`Error = false` — the subject branch returns before the sentinel switch. -/
theorem c1_counterexample :
    parseTimetable subjectFirstDoc = some ⟨false, false, "", "", "", []⟩ ∧
      ¬(parseTimetable subjectFirstDoc).map Timetable.Error = some true := by
  decide

/-- C1 (amended): a free row (day-label not a weekday AND subject cell
empty) encountered while `currentDay = -1` sets `hasError = true` on the
result and scanning continues; rows before the first day-marker record no
free slots and leave the cursor at `-1`; and the row fold continues across
any split of the row list (no abort). Subject rows before a day-marker only
clear `isEmpty`, without setting `hasError`. -/
theorem c1_sentinel :
    (∀ (hs : List Header) (grids : List (List Row)) (r : Row) (rows : List Row)
        (t : Timetable), isFreeRow r = true →
        parseTimetable ⟨hs, (r :: rows) :: grids⟩ = some t → t.Error = true) ∧
      (∀ (rows : List Row) (t : Timetable) (d' : Int) (t' : Timetable),
        (∀ r ∈ rows, isMarkerRow r = false) → foldRows (-1) t rows = some (d', t') →
        d' = -1 ∧ t'.FreeTimes = t.FreeTimes) ∧
      (∀ (xs ys : List Row) (d : Int) (t : Timetable),
        foldRows d t (xs ++ ys) = (foldRows d t xs).bind fun p => foldRows p.1 p.2 ys) := by
  refine ⟨?_, foldRows_noMarker, foldRows_append⟩
  intro hs grids r rows t hf hp
  rw [parseTimetable_eq, Option.bind_eq_some] at hp
  obtain ⟨t₁, h₁, h₂⟩ := hp
  rw [foldlM_opt_cons] at h₂
  cases hg : parseGrid t₁ (r :: rows) with
  | none => rw [hg] at h₂; cases h₂
  | some u =>
    rw [hg, Option.some_bind] at h₂
    have hstep := stepRow_free_neg t₁ r hf
    have hfr : foldRows (-1) t₁ (r :: rows) =
        foldRows (-1) { t₁ with Error := true } rows := by
      show (stepRow (-1) t₁ r).bind _ = _
      rw [hstep, Option.some_bind]
    unfold parseGrid at hg
    rw [hfr] at hg
    cases hf2 : foldRows (-1) { t₁ with Error := true } rows with
    | none => rw [hf2] at hg; cases hg
    | some p =>
      obtain ⟨pd, pt⟩ := p
      rw [hf2] at hg
      replace hg : some pt = some u := hg
      cases hg
      exact gridsFold_error_mono grids h₂ (foldRows_error_mono rows hf2 rfl)

/-- C1 witness: a grid beginning with the free row `(dayLabel "", subject
"", time "09:15")` yields a timetable with `Error = true`. -/
theorem c1_sentinel_witness :
    (⟨true, true, "", "", "", []⟩ : Timetable).Error = true :=
  c1_sentinel.1 [] [] ⟨"", "", "09:15"⟩ [] ⟨true, true, "", "", "", []⟩
    (by decide) (by decide)

/-- C2: for every parsed timetable, the total number of free-slot entries
across all days equals the number of grid rows classified as free that
occur after the first day-marker row of their grid table; and the concrete
grid [Monday marker, 09:15 free, 10:15 subject, 11:15 free] yields
`Empty = false` and `FreeTimes = [("Monday", ["09:15", "11:15"])]`. -/
theorem c2_free_count :
    (∀ (hs : List Header) (grids : List (List Row)) (t : Timetable),
        parseTimetable ⟨hs, grids⟩ = some t →
        totalFree t.FreeTimes = (grids.map fun g => countFreeAfter false g).sum) ∧
      parseTimetable ⟨[], [exGrid]⟩ =
        some ⟨false, false, "", "", "", [("Monday", ["09:15", "11:15"])]⟩ := by
  constructor
  · intro hs grids t hp
    rw [parseTimetable_eq, Option.bind_eq_some] at hp
    obtain ⟨t₁, h₁, h₂⟩ := hp
    have hft := (headersFold_freeTimes hs h₁).1
    have htot := gridsFold_totalFree grids t₁ t h₂
    rw [htot, hft]
    simp [totalFree]
  · decide

/-- C2 witness: the count equality evaluated on the concrete grid. -/
theorem c2_free_count_witness :
    totalFree ([("Monday", ["09:15", "11:15"])] : List (String × List String)) =
      (([exGrid] : List (List Row)).map fun g => countFreeAfter false g).sum :=
  c2_free_count.1 [] [exGrid] ⟨false, false, "", "", "", [("Monday", ["09:15", "11:15"])]⟩
    (by decide)

/-- C3 (counterexample): the parser happily records the same time twice for
one day when the document repeats a free row, and aggregating that single
parser-produced timetable puts its room twice in the Monday 09:15 bucket. -/
theorem c3_counterexample :
    parseTimetable dupDoc = some dupTimetable ∧
      tableGet (aggregate [dupTimetable]) "Monday" "09:15" = ["IT101", "IT101"] ∧
      ¬(tableGet (aggregate [dupTimetable]) "Monday" "09:15").Nodup := by
  decide

/-- C3 (amended): no room occurs twice in any `FreeRoomTable` bucket
provided the timetables carry pairwise-distinct room identifiers and each
per-day free-time list is duplicate-free (as holds for well-formed grids
listing each time slot once per day). -/
theorem c3_nodup :
    ∀ (ts : List Timetable), (ts.map Timetable.Room).Nodup →
      (∀ t ∈ ts, ∀ p ∈ t.FreeTimes, p.2.Nodup) →
      ∀ (day time : String), (tableGet (aggregate ts) day time).Nodup := by
  intro ts
  induction ts with
  | nil =>
    intro _ _ day time
    rw [tableGet_aggregate]
    simp
  | cons t rest ih =>
    intro h1 h2 day time
    rw [tableGet_aggregate]
    show ((contrib t day time) ++ (rest.map fun t => contrib t day time).flatten).Nodup
    obtain ⟨hhd, htl⟩ := List.nodup_cons.mp h1
    apply List.Nodup.append
    · exact contrib_nodup (h2 t (List.mem_cons_self t rest)) day time
    · have := ih htl (fun u hu p hp => h2 u (List.mem_cons_of_mem t hu) p hp) day time
      rw [tableGet_aggregate] at this
      exact this
    · intro x hx hx'
      have hxr : x = t.Room := mem_contrib hx
      obtain ⟨l, hl, hxl⟩ := List.mem_flatten.mp hx'
      obtain ⟨u, hu, hlu⟩ := List.mem_map.mp hl
      have hxu : x = u.Room := mem_contrib (hlu ▸ hxl)
      have : t.Room = u.Room := hxr ▸ hxu
      exact hhd (this ▸ List.mem_map_of_mem Timetable.Room hu)

/-- C3 witness: two distinct rooms each free Monday 09:15 give a
duplicate-free bucket. -/
theorem c3_nodup_witness :
    (tableGet
        (aggregate [⟨false, false, "", "IT101", "", [("Monday", ["09:15"])]⟩,
          ⟨false, false, "", "IT102", "", [("Monday", ["09:15"])]⟩])
        "Monday" "09:15").Nodup :=
  c3_nodup [⟨false, false, "", "IT101", "", [("Monday", ["09:15"])]⟩,
      ⟨false, false, "", "IT102", "", [("Monday", ["09:15"])]⟩]
    (by decide) (by decide) "Monday" "09:15"

/-- C4: every day key of a parsed timetable's free-slot map is one of the
five weekday names, and so is every outer key of the aggregated
`freeRoomTable`. -/
theorem c4_day_keys :
    (∀ (doc : Doc) (t : Timetable) (k : String),
        parseTimetable doc = some t → k ∈ mapKeys t.FreeTimes → k ∈ days) ∧
      (∀ (ts : List Timetable) (k : String),
        k ∈ (aggregate ts).map Prod.fst → k ∈ days) := by
  constructor
  · intro doc t k hp hk
    exact parse_keys hp k hk
  · intro ts k h
    rcases aggFold_keys ts [] k h with hl | hr
    · cases hl
    · exact hr

/-- C4 witness: the key `"Monday"` of the concrete parse is a weekday. -/
theorem c4_day_keys_witness : "Monday" ∈ days :=
  c4_day_keys.1 exDoc exTimetable "Monday" (by decide) (by decide)

/-- Wrapping is the identity on values already inside Go's `int` range. -/
theorem wrap64_eq_self {m : Int} (h₁ : -2 ^ 63 ≤ m) (h₂ : m ≤ 2 ^ 63 - 1) :
    wrap64 m = m := by
  unfold wrap64
  have hp : (2 : Int) ^ 63 = 9223372036854775808 := by norm_num
  have hq : (2 : Int) ^ 64 = 18446744073709551616 := by norm_num
  rw [hp, hq] at *
  rw [Int.emod_eq_of_lt (by omega) (by omega)]
  omega

/-- C5 (counterexample): the claim's "decimal rendering of that integer
plus the offset" fails when the sum overflows Go's 64-bit `int`: week
`"9223372036854775807"` (which `strconv.Atoi` accepts) with offset `1`
submits the wrapped value `"-9223372036854775808"`, not the rendering of
the mathematical sum. -/
theorem c5_counterexample :
    atoi? "9223372036854775807" = some 9223372036854775807 ∧
      submittedWeek "9223372036854775807" 1 = "-9223372036854775808" ∧
      ¬submittedWeek "9223372036854775807" 1 =
          toString ((9223372036854775807 : Int) + 1) := by
  refine ⟨by decide, by decide, ?_⟩
  intro h
  exact absurd ((by decide : submittedWeek "9223372036854775807" 1 =
    "-9223372036854775808").symm.trans h) (by decide)

/-- C5 (amended): a week code accepted by `strconv.Atoi` (optional sign,
digits, value within 64-bit `int`) is submitted as the decimal rendering
of the wrapped 64-bit sum of its value and the offset — which equals the
plain sum whenever that sum stays in range, as in lookup `"34"` with
offset `-1` submitting `"33"`; a week code `Atoi` rejects (non-numeric,
empty, or out of the `int` range, e.g. twenty nines) is submitted
unmodified, without aborting the run. -/
theorem c5_week_offset :
    (∀ (s : String) (n off : Int), atoi? s = some n →
        submittedWeek s off = toString (wrap64 (n + off))) ∧
      (∀ (s : String) (n off : Int), atoi? s = some n →
        -2 ^ 63 ≤ n + off → n + off ≤ 2 ^ 63 - 1 →
        submittedWeek s off = toString (n + off)) ∧
      submittedWeek "34" (-1) = "33" ∧
      (∀ (s : String) (off : Int), atoi? s = none → submittedWeek s off = s) ∧
      atoi? "99999999999999999999" = none := by
  refine ⟨fun s n off h => ?_, fun s n off h h₁ h₂ => ?_, by decide,
    fun s off h => ?_, by decide⟩
  · unfold submittedWeek
    rw [h]
  · unfold submittedWeek
    rw [h]
    show toString (wrap64 (n + off)) = toString (n + off)
    rw [wrap64_eq_self h₁ h₂]
  · unfold submittedWeek
    rw [h]

/-- C5 witness: the wrapped and in-range branches evaluated at `"34"` with
offset `-1`, and the raw branch at the non-numeric lookup `"S1"`. -/
theorem c5_week_offset_witness :
    submittedWeek "34" (-1) = toString (wrap64 ((34 : Int) + (-1))) ∧
      submittedWeek "34" (-1) = toString ((34 : Int) + (-1)) ∧
      submittedWeek "S1" (-1) = "S1" :=
  ⟨c5_week_offset.1 "34" 34 (-1) (by decide),
    c5_week_offset.2.1 "34" 34 (-1) (by decide) (by decide) (by decide),
    c5_week_offset.2.2.2.1 "S1" (-1) (by decide)⟩

/-- C6: an empty header cell sets `hasError = true` without stopping
processing: each empty cell's step still returns a result, and a document
whose date cell is empty parses with `Error = true` while room, week, empty
flag and the grid's free slots all match the parse of the same document
with a well-formed date cell. -/
theorem c6_header_error :
    (∀ t : Timetable, hdDate t "" = some { t with Error := true }) ∧
      (∀ t : Timetable, hdRoom t "" = some { t with Error := true }) ∧
      (∀ t : Timetable, hdWeek t "" = some { t with Error := true }) ∧
      (∀ (r w : String) (grids : List (List Row)) (t t' : Timetable),
        parseTimetable ⟨[⟨"", r, w⟩], grids⟩ = some t →
        parseTimetable ⟨[⟨"Mon 01/01", r, w⟩], grids⟩ = some t' →
        t.Error = true ∧ t.Room = t'.Room ∧ t.Week = t'.Week ∧
          t.Empty = t'.Empty ∧ t.FreeTimes = t'.FreeTimes) := by
  refine ⟨hdDate_empty, fun t => by simp [hdRoom], fun t => by simp [hdWeek], ?_⟩
  intro r w grids t t' h₁ h₂
  rw [parseTimetable_eq, Option.bind_eq_some] at h₁ h₂
  obtain ⟨a, ha, hga⟩ := h₁
  obtain ⟨b, hb, hgb⟩ := h₂
  rw [foldlM_opt_cons, Option.bind_eq_some] at ha hb
  obtain ⟨a₀, haa, haeq⟩ := ha
  obtain ⟨b₀, hbb, hbeq⟩ := hb
  replace haeq : some a₀ = some a := haeq
  replace hbeq : some b₀ = some b := hbeq
  cases haeq
  cases hbeq
  have hpar : eqRW a b := applyHeader_par ⟨rfl, rfl, rfl, rfl⟩ haa hbb
  have het : eqRW t t' := gridsFold_par grids a b t t' hpar hga hgb
  have hae : a.Error = true := by
    unfold applyHeader at haa
    rw [Option.bind_eq_some] at haa
    obtain ⟨x₁, hx₁, haa⟩ := haa
    rw [Option.bind_eq_some] at haa
    obtain ⟨x₂, hx₂, hx₃⟩ := haa
    replace hx₁ : hdDate ⟨false, true, "", "", "", []⟩ "" = some x₁ := hx₁
    rw [hdDate_empty] at hx₁
    cases hx₁
    exact hdWeek_error_mono hx₃ (hdRoom_error_mono hx₂ rfl)
  exact ⟨gridsFold_error_mono grids hga hae, het.1, het.2.1, het.2.2.1, het.2.2.2⟩

/-- C6 witness: the empty-date document next to its well-dated twin. -/
theorem c6_header_error_witness :
    (⟨true, true, "", "IT101", "33", [("Monday", ["09:15"])]⟩ : Timetable).Error = true ∧
      (⟨true, true, "", "IT101", "33", [("Monday", ["09:15"])]⟩ : Timetable).Room =
        (⟨false, true, "01/01", "IT101", "33", [("Monday", ["09:15"])]⟩ : Timetable).Room ∧
      (⟨true, true, "", "IT101", "33", [("Monday", ["09:15"])]⟩ : Timetable).Week =
        (⟨false, true, "01/01", "IT101", "33", [("Monday", ["09:15"])]⟩ : Timetable).Week ∧
      (⟨true, true, "", "IT101", "33", [("Monday", ["09:15"])]⟩ : Timetable).Empty =
        (⟨false, true, "01/01", "IT101", "33", [("Monday", ["09:15"])]⟩ : Timetable).Empty ∧
      (⟨true, true, "", "IT101", "33", [("Monday", ["09:15"])]⟩ : Timetable).FreeTimes =
        (⟨false, true, "01/01", "IT101", "33", [("Monday", ["09:15"])]⟩ : Timetable).FreeTimes :=
  c6_header_error.2.2.2 "Room - IT101" "Week 2 33"
    [[⟨"Monday", "", ""⟩, ⟨"", "", "09:15"⟩]]
    ⟨true, true, "", "IT101", "33", [("Monday", ["09:15"])]⟩
    ⟨false, true, "01/01", "IT101", "33", [("Monday", ["09:15"])]⟩
    (by decide) (by decide)

/-- C7: the aggregation fold is decomposable bucket by bucket — aggregating
a concatenation gives, in every day/time bucket, the first list's rooms
followed by the second's — and two rooms IT101 then IT102 both free Monday
09:15 land in the bucket in dispatch order. -/
theorem c7_agg_append :
    (∀ (l₁ l₂ : List Timetable) (day time : String),
        tableGet (aggregate (l₁ ++ l₂)) day time =
          tableGet (aggregate l₁) day time ++ tableGet (aggregate l₂) day time) ∧
      tableGet
          (aggregate [⟨false, false, "", "IT101", "", [("Monday", ["09:15"])]⟩,
            ⟨false, false, "", "IT102", "", [("Monday", ["09:15"])]⟩])
          "Monday" "09:15" = ["IT101", "IT102"] := by
  constructor
  · intro l₁ l₂ day time
    rw [tableGet_aggregate, tableGet_aggregate, tableGet_aggregate, List.map_append,
      List.flatten_append]
  · decide

/-- C8 (counterexample): with the `part_001` variant's `OnError` (which
calls `os.Exit(1)`), a failing request for room IT101 kills the whole run
(`none`), losing room IT102's timetable as well, while the
`room_scrape.go` loop carries on and returns IT102's record. -/
theorem c8_counterexample :
    runRoomsExit exFetch ["IT101", "IT102"] [] = none ∧
      runRooms exFetch ["IT101", "IT102"] [] =
        some [⟨false, true, "01/01", "IT102", "33", [("Monday", ["09:15"])]⟩] := by
  decide

/-- C8 (amended): in `room_scrape.go` a room request failure only drops
that room — the run behaves as if the failing rooms were filtered out of
the room list; in the `part_001` variant any failing room request
terminates the entire run via `os.Exit(1)`. -/
theorem c8_room_failure :
    (∀ (fetch : String → Option Doc) (rooms : List String) (acc : List Timetable),
        runRooms fetch rooms acc =
          runRooms fetch (rooms.filter fun r => (fetch r).isSome) acc) ∧
      (∀ (fetch : String → Option Doc) (rooms : List String) (acc : List Timetable)
        (r : String), r ∈ rooms → fetch r = none → runRoomsExit fetch rooms acc = none) :=
  ⟨fun fetch rooms acc => runRooms_filter fetch rooms acc,
    fun fetch rooms acc r h hf => runRoomsExit_fatal fetch rooms acc r h hf⟩

/-- C8 witness: the fatal branch evaluated at a concrete failing room. -/
theorem c8_room_failure_witness : runRoomsExit exFetch ["IT101"] [] = none :=
  c8_room_failure.2 exFetch ["IT101"] [] "IT101" (by decide) (by decide)

/-- C9: parsing is deterministic — two parses of the same document agree on
every field of the resulting timetable. -/
theorem c9_deterministic :
    ∀ (doc : Doc) (t₁ t₂ : Timetable),
      parseTimetable doc = some t₁ → parseTimetable doc = some t₂ →
      t₁.Error = t₂.Error ∧ t₁.Empty = t₂.Empty ∧ t₁.Date = t₂.Date ∧
        t₁.Room = t₂.Room ∧ t₁.Week = t₂.Week ∧ t₁.FreeTimes = t₂.FreeTimes := by
  intro doc t₁ t₂ h₁ h₂
  rw [h₁] at h₂
  cases h₂
  exact ⟨rfl, rfl, rfl, rfl, rfl, rfl⟩

/-- C9 witness: determinism evaluated at the concrete document. -/
theorem c9_deterministic_witness :
    exTimetable.Error = exTimetable.Error ∧ exTimetable.Empty = exTimetable.Empty ∧
      exTimetable.Date = exTimetable.Date ∧ exTimetable.Room = exTimetable.Room ∧
      exTimetable.Week = exTimetable.Week ∧ exTimetable.FreeTimes = exTimetable.FreeTimes :=
  c9_deterministic exDoc exTimetable exTimetable (by decide) (by decide)

/-- C10: the two unguarded indexing preconditions — a non-empty date cell
with fewer than two space-separated tokens, or a non-empty room or week
cell with fewer than three, panics (`none`), as does a free row after six
day-marker rows; and under the precondition that non-empty header cells
carry enough tokens and each grid holds at most five day-marker rows the
parser always returns a result (no panic branch is reachable). -/
theorem c10_partiality :
    (∀ (t : Timetable) (s : String), s ≠ "" → (splitSp s).length < 2 →
        hdDate t s = none) ∧
      (∀ (t : Timetable) (s : String), s ≠ "" → (splitSp s).length < 3 →
        hdRoom t s = none) ∧
      (∀ (t : Timetable) (s : String), s ≠ "" → (splitSp s).length < 3 →
        hdWeek t s = none) ∧
      parseTimetable ⟨[], [sixMarkerGrid]⟩ = none ∧
      (∀ doc : Doc, (∀ h ∈ doc.headers, goodHeader h) →
        (∀ g ∈ doc.grids, countMarkers g ≤ 5) → (parseTimetable doc).isSome) := by
  refine ⟨?_, ?_, ?_, by decide, parse_isSome⟩
  · intro t s h₁ h₂
    unfold hdDate
    rw [if_pos h₁, List.get?_eq_none.mpr (by omega)]
  · intro t s h₁ h₂
    unfold hdRoom
    rw [if_pos h₁, List.get?_eq_none.mpr (by omega)]
  · intro t s h₁ h₂
    unfold hdWeek
    rw [if_pos h₁, List.get?_eq_none.mpr (by omega)]

/-- C10 witness: the date panic at the one-token cell `"NoSpace"`, and
totality at the concrete well-formed document. -/
theorem c10_partiality_witness :
    hdDate ⟨false, true, "", "", "", []⟩ "NoSpace" = none ∧
      (parseTimetable exDoc).isSome :=
  ⟨c10_partiality.1 ⟨false, true, "", "", "", []⟩ "NoSpace" (by decide) (by decide),
    c10_partiality.2.2.2.2 exDoc (by decide) (by decide)⟩

end RoomScrape
